import Mathlib

/-!
Verification development for the job-scraper repository (scraper.py,
scrapers.py).  Python strings are modelled as `List Char` (`PyStr`); the
ASCII-relevant behaviour of `str.lower` is modelled by `lowerChar`, and
`str.strip` by `pyStrip`.  Fallible network / parse steps are modelled with
`Option` / `Except`.
-/

/-- Python strings, modelled as lists of characters. -/
abbrev PyStr := List Char

/-- Coercion from Lean string literals to the Python-string model. -/
def pstr (s : String) : PyStr := s.data

/-- Whitespace characters recognised by the model of Python `str.strip`
(the ASCII whitespace characters). -/
def isPySpace (c : Char) : Bool :=
  c = ' ' || c = '\t' || c = '\n' || c = '\r' || c = '\x0b' || c = '\x0c'

/-- ASCII case folding, the model of Python `str.lower` on the ASCII
characters the repository's configuration strings use. -/
def lowerChar (c : Char) : Char :=
  if c = 'A' then 'a' else if c = 'B' then 'b' else if c = 'C' then 'c'
  else if c = 'D' then 'd' else if c = 'E' then 'e' else if c = 'F' then 'f'
  else if c = 'G' then 'g' else if c = 'H' then 'h' else if c = 'I' then 'i'
  else if c = 'J' then 'j' else if c = 'K' then 'k' else if c = 'L' then 'l'
  else if c = 'M' then 'm' else if c = 'N' then 'n' else if c = 'O' then 'o'
  else if c = 'P' then 'p' else if c = 'Q' then 'q' else if c = 'R' then 'r'
  else if c = 'S' then 's' else if c = 'T' then 't' else if c = 'U' then 'u'
  else if c = 'V' then 'v' else if c = 'W' then 'w' else if c = 'X' then 'x'
  else if c = 'Y' then 'y' else if c = 'Z' then 'z' else c

/-- Model of Python `str.lower`. -/
def pyLower (s : PyStr) : PyStr := s.map lowerChar

/-- Drop leading whitespace (first half of Python `str.strip`). -/
def stripLeft (s : PyStr) : PyStr := s.dropWhile isPySpace

/-- Drop trailing whitespace (second half of Python `str.strip`). -/
def stripRight (s : PyStr) : PyStr := (stripLeft s.reverse).reverse

/-- Model of Python `str.strip`: remove leading and trailing whitespace. -/
def pyStrip (s : PyStr) : PyStr := stripRight (stripLeft s)

/-- Model of the Python substring test `needle in haystack`. -/
def isSubstr (n : PyStr) : PyStr → Bool
  | [] => n.isEmpty
  | c :: t => n.isPrefixOf (c :: t) || isSubstr n t

/-- One job posting (the `Job` dataclass of scrapers.py, lines 23-34). -/
structure Job where
  title : PyStr
  company : PyStr
  location : PyStr
  salary : PyStr
  url : PyStr
  source : PyStr
  description : PyStr
  remote : Bool
  date_scraped : PyStr
deriving DecidableEq

/-- The matcher-relevant part of the scraper configuration dict
(scrapers.py lines 51-53). -/
structure MatchConfig where
  keywords : List PyStr
  allowed_locations : List PyStr
  excluded_locations : List PyStr

/-- Default keyword list of `JobScraper.matches_keywords`
(scrapers.py lines 91-94). -/
def default_keywords : List PyStr :=
  [pstr "devops", pstr "sre", pstr "site reliability", pstr "platform engineer",
   pstr "infrastructure", pstr "cloud engineer", pstr "devsecops",
   pstr "kubernetes", pstr "terraform"]

/-- The lowered text `f"{a} {b}".lower()` built by both matchers
(scrapers.py lines 99 and 104). -/
def mlText (a b : PyStr) : PyStr := pyLower (a ++ ' ' :: b)

/-- Model of `JobScraper.matches_keywords` (scrapers.py lines 87-100). -/
def matches_keywords (keywords : List PyStr) (title description : PyStr) : Bool :=
  let kws := if keywords.isEmpty then default_keywords else keywords
  let text := mlText title description
  kws.any (fun kw => isSubstr (pyLower kw) text)

/-- Default US/Canada terms of `JobScraper.matches_location`
(scrapers.py lines 116-119). -/
def us_canada_terms : List PyStr :=
  [pstr "united states", pstr "usa", pstr "u.s.", pstr "america", pstr "canada",
   pstr "canadian", pstr "remote", pstr "north america", pstr "worldwide",
   pstr "anywhere", pstr "global"]

/-- Model of `JobScraper.matches_location` (scrapers.py lines 102-120):
excluded phrases are checked first as lowered substrings; then the allowed
list (when non-empty) is checked by lowered substring containment; otherwise
the built-in default terms are checked. -/
def matches_location (cfg : MatchConfig) (location description : PyStr) : Bool :=
  let text := mlText location description
  if !cfg.excluded_locations.isEmpty &&
      cfg.excluded_locations.any (fun exc => isSubstr (pyLower exc) text) then
    false
  else if !cfg.allowed_locations.isEmpty then
    cfg.allowed_locations.any (fun loc => isSubstr (pyLower loc) text)
  else
    us_canada_terms.any (fun term => isSubstr term text)

/-- Identity keys used for deduplication. -/
abbrev JobKey := PyStr × PyStr

/-- The identity key built by `deduplicate_jobs` (scraper.py line 110):
`(job.title.lower().strip(), job.company.lower().strip())`. -/
def jobKey (j : Job) : JobKey :=
  (pyStrip (pyLower j.title), pyStrip (pyLower j.company))

/-- The loop of `deduplicate_jobs` (scraper.py lines 106-115), with the
`seen` set modelled as the list of keys added so far. -/
def dedupAux (seen : List JobKey) : List Job → List Job
  | [] => []
  | j :: rest =>
    let k := jobKey j
    if k ∈ seen then dedupAux seen rest
    else j :: dedupAux (k :: seen) rest

/-- Model of `deduplicate_jobs` (scraper.py lines 104-115). -/
def deduplicate_jobs (jobs : List Job) : List Job := dedupAux [] jobs

/-- The `seen` set (as a list of keys) after processing a list of jobs,
mirroring the accumulator of `dedupAux`. -/
def seenAfter (seen : List JobKey) : List Job → List JobKey
  | [] => seen
  | j :: rest =>
    let k := jobKey j
    if k ∈ seen then seenAfter seen rest
    else seenAfter (k :: seen) rest

/-- The two-argument merge of `save_jobs` (scraper.py lines 133-135):
`deduplicate_jobs(existing_jobs + jobs)`. -/
def dedupe (existing incoming : List Job) : List Job :=
  deduplicate_jobs (existing ++ incoming)

/-- Modelled from the spec's words (section 4.4): keep each Job iff its
identity key was not produced by any earlier Job; used to compare the code's
`deduplicate_jobs` against the specified first-seen-wins semantics. -/
def keyFirstSeenSpec : List Job → List Job
  | [] => []
  | j :: rest =>
    j :: keyFirstSeenSpec (rest.filter fun j2 => decide (jobKey j2 ≠ jobKey j))
termination_by l => l.length
decreasing_by
  simp only [List.length_cons]
  exact Nat.lt_succ_of_le (List.length_filter_le _ _)

/-- A string together with case changes and surrounding whitespace: `t` is
`s` with every character case-mapped (a map that does not change the
lower-cased character) and whitespace padding added at both ends. -/
def caseWsVariant (s t : PyStr) : Prop :=
  ∃ (pre suf : PyStr) (f : Char → Char),
    (∀ c ∈ pre, isPySpace c = true) ∧ (∀ c ∈ suf, isPySpace c = true) ∧
    (∀ c, lowerChar (f c) = lowerChar c) ∧ t = pre ++ s.map f ++ suf

/-- Case map used by concrete witnesses: lowers the letters D, O, E, A and
keeps every other character. -/
def caseMapW : Char → Char := fun c =>
  if c = 'D' then 'd' else if c = 'O' then 'o' else if c = 'E' then 'e'
  else if c = 'A' then 'a' else c

/-- Concrete job used by witnesses. -/
def jobA : Job :=
  ⟨pstr "DevOps Engineer", pstr "Acme", pstr "Remote", pstr "Not specified",
   pstr "https://a.example/1", pstr "Greenhouse-Acme", [], true,
   pstr "2026-01-01T00:00:00"⟩

/-- A case/whitespace variant of `jobA` with a different URL and source. -/
def jobB : Job :=
  ⟨pstr " devops engineer ", pstr "acme", pstr "New York", pstr "Not specified",
   pstr "https://b.example/2", pstr "Lever-acme", [], false,
   pstr "2026-01-02T00:00:00"⟩

/-- Model of Python exception payloads (the message). -/
abbrev PyErr := PyStr

/-- Lookup in the effective per-provider registry built by `run_scraper`
(scraper.py lines 202-213): an empty dict is updated with the curated
entries and then with the discovered entries; under dict-update semantics a
later entry for the same key overwrites the earlier one, so lookup tries
the discovered list first. -/
def registryGet (curated discovered : List (PyStr × PyStr)) (name : PyStr) :
    Option PyStr :=
  match discovered.lookup name with
  | some v => some v
  | none => curated.lookup name

/-- One record of the Greenhouse board response, as read by
`GreenhouseScraper._scrape_company` (scrapers.py lines 141-147): the title,
the extracted location name, and the absolute URL. -/
structure GHJobData where
  title : PyStr
  locationName : PyStr
  absoluteUrl : PyStr
deriving DecidableEq

/-- Model of `GreenhouseScraper._scrape_company` (scrapers.py lines
130-170).  `none` models `safe_get` returning None (request failure,
scrapers.py lines 62-70); `Except.error` models an exception raised while
parsing the response, caught by the blanket handler at line 167; both
contribute zero jobs.  A successful response yields one Job per record
passing the keyword and location filters. -/
def ghScrapeCompany (cfg : MatchConfig) (now : PyStr) (companyName boardId : PyStr)
    (fetch : PyStr → Option (Except PyErr (List GHJobData))) : List Job :=
  match fetch boardId with
  | none => []
  | some (Except.error _) => []
  | some (Except.ok ds) =>
    ds.filterMap fun d =>
      if matches_keywords cfg.keywords d.title [] &&
          matches_location cfg d.locationName [] then
        some ⟨d.title, companyName, d.locationName, pstr "Not specified",
          d.absoluteUrl, pstr "Greenhouse-" ++ companyName, [],
          isSubstr (pstr "remote") (pyLower d.locationName), now⟩
      else none

/-- The sequential-mode loop of `GreenhouseScraper.scrape` (scrapers.py
lines 172-193): `self.jobs` is extended with each company's result list and
then returned. -/
def ghScrape (selfJobs : List Job) (cfg : MatchConfig) (now : PyStr)
    (companies : List (PyStr × PyStr))
    (fetch : PyStr → Option (Except PyErr (List GHJobData))) : List Job :=
  companies.foldl (fun acc nb => acc ++ ghScrapeCompany cfg now nb.1 nb.2 fetch)
    selfJobs

/-- A per-target fetch outcome that contributes zero jobs: request failure
or parse failure. -/
def ghFetchFailed : Option (Except PyErr (List GHJobData)) → Bool
  | none => true
  | some (Except.error _) => true
  | some (Except.ok _) => false

/-- One record of the Remotive feed response, as read by
`RemotiveScraper.scrape` (scrapers.py lines 359-375). -/
structure RmJobData where
  title : PyStr
  company_name : PyStr
  candidate_required_location : PyStr
  salary : PyStr
  url : PyStr
  description : PyStr
deriving DecidableEq

/-- The fixed query URL of `RemotiveScraper.scrape` (scrapers.py line 350). -/
def remotiveUrl : PyStr := pstr "https://remotive.com/api/remote-jobs?category=devops"

/-- The translation loop of `RemotiveScraper.scrape` (scrapers.py lines
359-381): the first 30 feed entries are filtered by keyword and location and
translated into Jobs; HTML-to-text extraction of the description is modelled
as the identity on the already-plain text, truncated to 500 characters. -/
def rmProcess (cfg : MatchConfig) (now : PyStr) (ds : List RmJobData) : List Job :=
  (ds.take 30).filterMap fun d =>
    if matches_keywords cfg.keywords d.title d.description &&
        matches_location cfg d.candidate_required_location d.description then
      some ⟨d.title, d.company_name, d.candidate_required_location, d.salary,
        d.url, pstr "Remotive", d.description.take 500, true, now⟩
    else none

/-- Model of `RemotiveScraper.scrape` (scrapers.py lines 347-388) paired
with the list of query URLs it issues: exactly one GET against the fixed
devops-category endpoint; on request or parse failure `self.jobs` is
returned unchanged, otherwise the processed entries are appended to
`self.jobs` and the whole list returned. -/
def remotiveScrape (selfJobs : List Job) (cfg : MatchConfig) (now : PyStr)
    (fetch : PyStr → Option (Except PyErr (List RmJobData))) :
    List Job × List PyStr :=
  match fetch remotiveUrl with
  | none => (selfJobs, [remotiveUrl])
  | some (Except.error _) => (selfJobs, [remotiveUrl])
  | some (Except.ok ds) => (selfJobs ++ rmProcess cfg now ds, [remotiveUrl])

/-- An adapter as seen by `run_scraper`: the outcome of calling its
`scrape()` once. -/
structure Adapter where
  scrape : Except PyErr (List Job)

/-- Evaluation of the scraper constructor list (scraper.py lines 216-226):
the list literal is built before the scraping loop and outside any
try/except, so a constructor error propagates. -/
def buildScrapers : List (Except PyErr Adapter) → Except PyErr (List Adapter)
  | [] => Except.ok []
  | c :: rest =>
    match c with
    | Except.error e => Except.error e
    | Except.ok a =>
      match buildScrapers rest with
      | Except.error e => Except.error e
      | Except.ok as => Except.ok (a :: as)

/-- The scraping loop of `run_scraper` (scraper.py lines 240-247): each
adapter's `scrape()` is called inside try/except and an exception
contributes zero jobs. -/
def collectJobs (scrapers : List Adapter) : List Job :=
  scrapers.foldl
    (fun acc s =>
      match s.scrape with
      | Except.ok js => acc ++ js
      | Except.error _ => acc) []

/-- Model of `run_scraper` (scraper.py lines 216-251): the adapter
constructors are evaluated first, then the loop collects jobs with
per-adapter exception handling, and the collected list is deduplicated.
Persistence and the printed summary are omitted. -/
def runScraperCore (ctors : List (Except PyErr Adapter)) : Except PyErr (List Job) :=
  match buildScrapers ctors with
  | Except.error e => Except.error e
  | Except.ok scrapers => Except.ok (deduplicate_jobs (collectJobs scrapers))

/-- Shared witness configuration: keywords ["devops", "sre"],
allowed = ["remote"], excluded = []. -/
def cfgW : MatchConfig := ⟨[pstr "devops", pstr "sre"], [pstr "remote"], []⟩

/-- Shared witness timestamp. -/
def nowW : PyStr := pstr "2026-02-03T04:05:06"

/-- Three configured Greenhouse targets. -/
def companiesW : List (PyStr × PyStr) :=
  [(pstr "Alpha", pstr "a1"), (pstr "Beta", pstr "b1"), (pstr "Gamma", pstr "c1")]

/-- Fetch outcomes for the three targets: the board "b1" fails (HTTP 500,
so `safe_get` returns None), the other two succeed with one matching job
each. -/
def fetchW : PyStr → Option (Except PyErr (List GHJobData)) := fun b =>
  if b = pstr "a1" then
    some (Except.ok
      [⟨pstr "DevOps Engineer", pstr "Remote - US", pstr "https://gh.example/a"⟩])
  else if b = pstr "b1" then none
  else if b = pstr "c1" then
    some (Except.ok
      [⟨pstr "SRE Lead", pstr "Remote - US", pstr "https://gh.example/c"⟩])
  else none

/-- The Job produced for the "Alpha" target under `fetchW`. -/
def ghJobAlpha : Job :=
  ⟨pstr "DevOps Engineer", pstr "Alpha", pstr "Remote - US", pstr "Not specified",
   pstr "https://gh.example/a", pstr "Greenhouse-Alpha", [], true, nowW⟩

/-- A Remotive feed holding two distinct entries with the same URL, both
matching the witness configuration's keywords and location. -/
def rmFeedDup : List RmJobData :=
  [⟨pstr "DevOps Engineer", pstr "Acme", pstr "Remote", pstr "$100k",
    pstr "https://remotive.com/j/1", pstr "devops role"⟩,
   ⟨pstr "SRE", pstr "Acme", pstr "Remote", pstr "$90k",
    pstr "https://remotive.com/j/1", pstr "sre role"⟩]

/-- A fetch that answers every query with `rmFeedDup`. -/
def rmFetchDup : PyStr → Option (Except PyErr (List RmJobData)) := fun _ =>
  some (Except.ok rmFeedDup)

/-- Two adapters whose `scrape()` both raise. -/
def failingAdapters : List Adapter :=
  [⟨Except.error (pstr "boom")⟩, ⟨Except.error (pstr "crash")⟩]



lemma lowerChar_of_space {c : Char} (h : isPySpace c = true) : lowerChar c = c := by
  simp only [isPySpace, Bool.or_eq_true, decide_eq_true_eq] at h
  rcases h with ((((h | h) | h) | h) | h) | h <;> subst h <;> decide

lemma stripLeft_space_append {pre l : PyStr} (h : ∀ c ∈ pre, isPySpace c = true) :
    stripLeft (pre ++ l) = stripLeft l :=
  List.dropWhile_append_of_pos h

lemma stripRight_append_space {l suf : PyStr} (h : ∀ c ∈ suf, isPySpace c = true) :
    stripRight (l ++ suf) = stripRight l := by
  unfold stripRight
  rw [List.reverse_append, stripLeft_space_append]
  intro c hc
  exact h c (List.mem_reverse.mp hc)

lemma stripLeft_of_all_space {l : PyStr} (h : ∀ c ∈ l, isPySpace c = true) :
    stripLeft l = [] := by
  induction l with
  | nil => rfl
  | cons c t ih =>
    unfold stripLeft
    rw [List.dropWhile_cons_of_pos (h c (List.mem_cons_self c t))]
    exact ih fun c hc => h c (List.mem_cons_of_mem _ hc)

lemma pyStrip_append_space {m suf : PyStr} (hsuf : ∀ c ∈ suf, isPySpace c = true) :
    pyStrip (m ++ suf) = pyStrip m := by
  induction m with
  | nil =>
    simp only [List.nil_append, pyStrip, stripLeft_of_all_space hsuf]
    rfl
  | cons c t ih =>
    by_cases hc : isPySpace c = true
    · simpa only [pyStrip, List.cons_append, stripLeft,
        List.dropWhile_cons_of_pos hc] using ih
    · simp only [pyStrip, List.cons_append, stripLeft,
        List.dropWhile_cons_of_neg (by simpa using hc)]
      show stripRight ((c :: t) ++ suf) = stripRight (c :: t)
      exact stripRight_append_space hsuf

lemma pyStrip_pad {pre m suf : PyStr} (hpre : ∀ c ∈ pre, isPySpace c = true)
    (hsuf : ∀ c ∈ suf, isPySpace c = true) :
    pyStrip (pre ++ m ++ suf) = pyStrip m := by
  have h1 : pyStrip (pre ++ m ++ suf) = pyStrip (m ++ suf) := by
    simp only [pyStrip, List.append_assoc, stripLeft_space_append hpre]
  rw [h1, pyStrip_append_space hsuf]

lemma pyLower_caseWsVariant {s t : PyStr} (h : caseWsVariant s t) :
    pyStrip (pyLower t) = pyStrip (pyLower s) := by
  obtain ⟨pre, suf, f, hpre, hsuf, hf, ht⟩ := h
  subst ht
  have hmap : (s.map f).map lowerChar = s.map lowerChar := by
    rw [List.map_map]
    exact List.map_congr_left fun c _ => hf c
  have hpre' : ∀ c ∈ pre.map lowerChar, isPySpace c = true := by
    intro c hc
    obtain ⟨d, hd, rfl⟩ := List.mem_map.mp hc
    rw [lowerChar_of_space (hpre d hd)]
    exact hpre d hd
  have hsuf' : ∀ c ∈ suf.map lowerChar, isPySpace c = true := by
    intro c hc
    obtain ⟨d, hd, rfl⟩ := List.mem_map.mp hc
    rw [lowerChar_of_space (hsuf d hd)]
    exact hsuf d hd
  calc pyStrip (pyLower (pre ++ s.map f ++ suf))
      = pyStrip (pre.map lowerChar ++ (s.map f).map lowerChar ++ suf.map lowerChar) := by
        simp only [pyLower, List.map_append]
    _ = pyStrip ((s.map f).map lowerChar) := pyStrip_pad hpre' hsuf'
    _ = pyStrip (pyLower s) := by rw [hmap]; rfl

lemma dedupAux_append (xs : List Job) :
    ∀ (s : List JobKey) (ys : List Job),
      dedupAux s (xs ++ ys) = dedupAux s xs ++ dedupAux (seenAfter s xs) ys := by
  induction xs with
  | nil => intro s ys; rfl
  | cons j rest ih =>
    intro s ys
    simp only [List.cons_append, dedupAux, seenAfter]
    by_cases h : jobKey j ∈ s
    · simp only [if_pos h]
      exact ih s ys
    · simp only [if_neg h, List.cons_append, List.cons.injEq, true_and]
      exact ih (jobKey j :: s) ys

lemma dedupAux_key_not_seen (l : List Job) :
    ∀ (s : List JobKey) (k : JobKey), k ∈ (dedupAux s l).map jobKey → k ∉ s := by
  induction l with
  | nil => intro s k h; simp [dedupAux] at h
  | cons j rest ih =>
    intro s k h
    simp only [dedupAux] at h
    by_cases hj : jobKey j ∈ s
    · exact ih s k (by simpa only [if_pos hj] using h)
    · rw [if_neg hj, List.map_cons, List.mem_cons] at h
      rcases h with rfl | h
      · exact hj
      · intro hs
        exact ih (jobKey j :: s) k h (List.mem_cons_of_mem _ hs)

lemma dedupAux_keys_nodup (l : List Job) :
    ∀ s : List JobKey, ((dedupAux s l).map jobKey).Nodup := by
  induction l with
  | nil => intro s; simp [dedupAux]
  | cons j rest ih =>
    intro s
    simp only [dedupAux]
    by_cases hj : jobKey j ∈ s
    · simpa only [if_pos hj] using ih s
    · rw [if_neg hj, List.map_cons, List.nodup_cons]
      refine ⟨fun hmem => ?_, ih (jobKey j :: s)⟩
      exact dedupAux_key_not_seen rest (jobKey j :: s) (jobKey j) hmem
        (List.mem_cons_self _ _)

lemma dedupAux_eq_keyFirstSeenSpec (l : List Job) :
    ∀ s : List JobKey,
      dedupAux s l = keyFirstSeenSpec (l.filter fun j => decide (jobKey j ∉ s)) := by
  induction l with
  | nil => intro s; simp [dedupAux, keyFirstSeenSpec]
  | cons j rest ih =>
    intro s
    simp only [dedupAux, List.filter_cons]
    by_cases hj : jobKey j ∈ s
    · simp only [if_pos hj, hj, not_true_eq_false, decide_False, Bool.false_eq_true,
        if_false]
      exact ih s
    · rw [if_neg hj]
      simp only [hj, not_false_eq_true, decide_True, if_true,
        keyFirstSeenSpec, List.cons.injEq, true_and]
      rw [List.filter_filter]
      have hcongr :
          (rest.filter fun a =>
            (decide (jobKey a ≠ jobKey j) && decide (jobKey a ∉ s))) =
          rest.filter fun a => decide (jobKey a ∉ jobKey j :: s) := by
        apply List.filter_congr
        intro a _
        simp [List.mem_cons, not_or]
      rw [hcongr]
      exact ih (jobKey j :: s)

lemma deduplicate_jobs_eq_spec (l : List Job) :
    deduplicate_jobs l = keyFirstSeenSpec l := by
  rw [deduplicate_jobs, dedupAux_eq_keyFirstSeenSpec l []]
  congr 1
  apply List.filter_eq_self.mpr
  intro a _
  simp

lemma dedupAux_idem_and_seen (l : List Job) :
    ∀ s : List JobKey,
      dedupAux s (dedupAux s l) = dedupAux s l ∧
      seenAfter s (dedupAux s l) = seenAfter s l := by
  induction l with
  | nil => intro s; exact ⟨rfl, rfl⟩
  | cons j rest ih =>
    intro s
    simp only [dedupAux, seenAfter]
    by_cases hj : jobKey j ∈ s
    · simp only [if_pos hj]
      exact ih s
    · simp only [if_neg hj, dedupAux, seenAfter, if_neg hj]
      exact ⟨by rw [(ih (jobKey j :: s)).1], (ih (jobKey j :: s)).2⟩

lemma dedupAux_eq_self (l : List Job) :
    ∀ s : List JobKey, (∀ k ∈ l.map jobKey, k ∉ s) → (l.map jobKey).Nodup →
      dedupAux s l = l := by
  induction l with
  | nil => intro s _ _; rfl
  | cons j rest ih =>
    intro s hdisj hnodup
    have hj : jobKey j ∉ s := hdisj (jobKey j) (by simp)
    simp only [dedupAux, if_neg hj, List.cons.injEq, true_and]
    rw [List.map_cons, List.nodup_cons] at hnodup
    apply ih (jobKey j :: s)
    · intro k hk
      rw [List.mem_cons, not_or]
      constructor
      · rintro rfl
        exact hnodup.1 hk
      · exact hdisj k (List.mem_cons_of_mem _ hk)
    · exact hnodup.2

lemma isSubstr_correct (n : PyStr) : ∀ h : PyStr, isSubstr n h = true ↔ n <:+: h := by
  intro h
  induction h with
  | nil =>
    simp only [isSubstr, List.isEmpty_eq_true, List.infix_nil]
  | cons c t ih =>
    simp only [isSubstr, Bool.or_eq_true, List.isPrefixOf_iff_prefix, ih]
    exact List.infix_cons_iff.symm

lemma mlText_eq (a b : PyStr) : mlText a b = pyLower a ++ ' ' :: pyLower b := by
  unfold mlText pyLower
  rw [List.map_append, List.map_cons]
  rw [show lowerChar ' ' = ' ' from by decide]

lemma infix_mlText_of_location {x loc : PyStr} (desc : PyStr)
    (h : x <:+: pyLower loc) : x <:+: mlText loc desc := by
  rw [mlText_eq]
  exact h.trans (List.prefix_append _ _).isInfix

lemma matches_location_of_excluded_hit {cfg : MatchConfig} {location description : PyStr}
    (h : ∃ exc ∈ cfg.excluded_locations, pyLower exc <:+: mlText location description) :
    matches_location cfg location description = false := by
  obtain ⟨exc, hmem, hinf⟩ := h
  have hne : cfg.excluded_locations ≠ [] := by
    intro hnil
    rw [hnil] at hmem
    exact absurd hmem (List.not_mem_nil exc)
  unfold matches_location
  rw [if_pos]
  rw [Bool.and_eq_true]
  constructor
  · simpa using hne
  · exact List.any_eq_true.mpr ⟨exc, hmem, (isSubstr_correct _ _).mpr hinf⟩

lemma matches_location_of_no_excluded_hit {cfg : MatchConfig} {location description : PyStr}
    (h : ∀ exc ∈ cfg.excluded_locations, ¬ pyLower exc <:+: mlText location description) :
    matches_location cfg location description =
      (if cfg.allowed_locations.isEmpty then
        us_canada_terms.any fun term => isSubstr term (mlText location description)
      else
        cfg.allowed_locations.any fun loc => isSubstr (pyLower loc) (mlText location description)) := by
  unfold matches_location
  rw [if_neg]
  · by_cases hall : cfg.allowed_locations.isEmpty
    · rw [if_neg (by simpa using hall), if_pos hall]
    · rw [if_pos (by simpa using hall), if_neg hall]
  · rw [Bool.and_eq_true]
    rintro ⟨-, hany⟩
    obtain ⟨exc, hmem, hsub⟩ := List.any_eq_true.mp hany
    exact h exc hmem ((isSubstr_correct _ _).mp hsub)

lemma caseMapW_lower : ∀ c, lowerChar (caseMapW c) = lowerChar c := by
  intro c
  unfold caseMapW
  split_ifs with h1 h2 h3 h4
  · subst h1; decide
  · subst h2; decide
  · subst h3; decide
  · subst h4; decide
  · rfl

lemma ghScrapeCompany_of_failed {cfg : MatchConfig} {now n b : PyStr}
    {fetch : PyStr → Option (Except PyErr (List GHJobData))}
    (h : ghFetchFailed (fetch b) = true) :
    ghScrapeCompany cfg now n b fetch = [] := by
  cases hf : fetch b with
  | none => simp [ghScrapeCompany, hf]
  | some r =>
    cases r with
    | error e => simp [ghScrapeCompany, hf]
    | ok ds => rw [hf] at h; simp [ghFetchFailed] at h

lemma ghScrape_state (cfg : MatchConfig) (now : PyStr)
    (fetch : PyStr → Option (Except PyErr (List GHJobData))) :
    ∀ (companies : List (PyStr × PyStr)) (s : List Job),
      ghScrape s cfg now companies fetch = s ++ ghScrape [] cfg now companies fetch := by
  intro companies
  induction companies with
  | nil => intro s; simp [ghScrape]
  | cons nb rest ih =>
    intro s
    show ghScrape (s ++ ghScrapeCompany cfg now nb.1 nb.2 fetch) cfg now rest fetch =
      s ++ ghScrape ([] ++ ghScrapeCompany cfg now nb.1 nb.2 fetch) cfg now rest fetch
    rw [ih (s ++ ghScrapeCompany cfg now nb.1 nb.2 fetch),
        ih ([] ++ ghScrapeCompany cfg now nb.1 nb.2 fetch)]
    simp [List.append_assoc]

lemma ghScrape_filter (cfg : MatchConfig) (now : PyStr)
    (fetch : PyStr → Option (Except PyErr (List GHJobData))) :
    ∀ companies : List (PyStr × PyStr),
      ghScrape [] cfg now companies fetch =
        ((companies.filter fun nb => !ghFetchFailed (fetch nb.2)).map
          fun nb => ghScrapeCompany cfg now nb.1 nb.2 fetch).flatten := by
  intro companies
  induction companies with
  | nil => rfl
  | cons nb rest ih =>
    have hstep : ghScrape [] cfg now (nb :: rest) fetch =
        ghScrapeCompany cfg now nb.1 nb.2 fetch ++ ghScrape [] cfg now rest fetch := by
      show ghScrape ([] ++ ghScrapeCompany cfg now nb.1 nb.2 fetch) cfg now rest fetch = _
      rw [List.nil_append]
      exact ghScrape_state cfg now fetch rest _
    rw [hstep, ih]
    by_cases hf : ghFetchFailed (fetch nb.2) = true
    · rw [ghScrapeCompany_of_failed hf, List.filter_cons_of_neg (by simp [hf]),
        List.nil_append]
    · rw [List.filter_cons_of_pos (by simp only [Bool.not_eq_true] at hf; simp [hf]),
        List.map_cons, List.flatten_cons]

lemma remotiveScrape_state (selfJobs : List Job) (cfg : MatchConfig) (now : PyStr)
    (fetch : PyStr → Option (Except PyErr (List RmJobData))) :
    selfJobs <+: (remotiveScrape selfJobs cfg now fetch).1 ∧
    (remotiveScrape selfJobs cfg now fetch).2 = [remotiveUrl] := by
  unfold remotiveScrape
  cases hf : fetch remotiveUrl with
  | none => exact ⟨List.prefix_rfl, rfl⟩
  | some r =>
    cases r with
    | error e => exact ⟨List.prefix_rfl, rfl⟩
    | ok ds => exact ⟨List.prefix_append _ _, rfl⟩

lemma buildScrapers_map_ok : ∀ as : List Adapter,
    buildScrapers (as.map Except.ok) = Except.ok as := by
  intro as
  induction as with
  | nil => rfl
  | cons a rest ih => simp [buildScrapers, ih]

lemma collectJobs_all_error : ∀ (as : List Adapter),
    (∀ a ∈ as, ∃ e, a.scrape = Except.error e) → collectJobs as = [] := by
  have haux : ∀ (as : List Adapter) (acc : List Job),
      (∀ a ∈ as, ∃ e, a.scrape = Except.error e) →
      as.foldl (fun acc s =>
        match s.scrape with
        | Except.ok js => acc ++ js
        | Except.error _ => acc) acc = acc := by
    intro as
    induction as with
    | nil => intro acc _; rfl
    | cons a rest ih =>
      intro acc h
      obtain ⟨e, he⟩ := h a (List.mem_cons_self a rest)
      simp only [List.foldl_cons, he]
      exact ih acc fun a' ha' => h a' (List.mem_cons_of_mem _ ha')
  intro as h
  exact haux as [] h

lemma buildScrapers_error : ∀ (pre : List (Except PyErr Adapter)) (e : PyErr)
    (post : List (Except PyErr Adapter)),
    (∀ c ∈ pre, ∃ a, c = Except.ok a) →
    buildScrapers (pre ++ Except.error e :: post) = Except.error e := by
  intro pre
  induction pre with
  | nil => intro e post _; rfl
  | cons c rest ih =>
    intro e post h
    obtain ⟨a, ha⟩ := h c (List.mem_cons_self c rest)
    subst ha
    simp only [List.cons_append, buildScrapers]
    rw [List.append_eq, ih e post fun c' hc' => h c' (List.mem_cons_of_mem _ hc')]


/-- C1: the merge of `save_jobs` processes existing jobs first and incoming
jobs second, keeping a job iff its identity key was not produced by any
earlier job (the result is the kept existing jobs followed by the kept
incoming jobs, in first-seen order, as the spec-level `keyFirstSeenSpec`
states); the result holds at most one job per identity key, and case or
surrounding whitespace in title/company never affects the identity key. -/
theorem C1_dedupe_first_seen (E I : List Job) :
    dedupe E I = dedupAux [] E ++ dedupAux (seenAfter [] E) I ∧
    dedupe E I = keyFirstSeenSpec (E ++ I) ∧
    ((dedupe E I).map jobKey).Nodup ∧
    ∀ j1 j2 : Job, caseWsVariant j1.title j2.title →
      caseWsVariant j1.company j2.company → jobKey j2 = jobKey j1 := by
  refine ⟨dedupAux_append E [] I, deduplicate_jobs_eq_spec (E ++ I),
    dedupAux_keys_nodup (E ++ I) [], ?_⟩
  intro j1 j2 ht hc
  unfold jobKey
  rw [pyLower_caseWsVariant ht, pyLower_caseWsVariant hc]

/-- Witness for C1: the identity keys of `jobA` and its
case-and-whitespace variant `jobB` agree, and merging `[jobB]` into the
persisted `[jobA]` keeps only the earlier `jobA`. -/
theorem C1_dedupe_first_seen_witness :
    jobKey jobB = jobKey jobA ∧ dedupe [jobA] [jobB] = [jobA] := by
  have h := (C1_dedupe_first_seen [jobA] [jobB]).2.2.2 jobA jobB
    ⟨[' '], [' '], caseMapW, by decide, by decide, caseMapW_lower, by decide⟩
    ⟨[], [], caseMapW, by decide, by decide, caseMapW_lower, by decide⟩
  exact ⟨h, by decide⟩

/-- Counterexample to C5: `dedupe(L, []) = L` fails for a list `L` that
itself contains two jobs with the same identity key — the merge collapses
them, so the result is shorter than `L`. -/
theorem C5_idempotence_counterexample :
    dedupe [jobA, jobA] [] ≠ [jobA, jobA] := by decide

/-- C5 amended: `dedupe(L, []) = L` holds whenever `L` carries pairwise
distinct identity keys (in particular for any previous `dedupe` output),
and the merge is associative, `dedupe(dedupe(E, I1), I2) =
dedupe(E, I1 ++ I2)`, for all batches — no key-disjointness is needed. -/
theorem C5_dedupe_algebra :
    (∀ L : List Job, (L.map jobKey).Nodup → dedupe L [] = L) ∧
    (∀ E I1 I2 : List Job, dedupe (dedupe E I1) I2 = dedupe E (I1 ++ I2)) := by
  constructor
  · intro L h
    rw [dedupe, List.append_nil, deduplicate_jobs]
    exact dedupAux_eq_self L [] (fun k _ => List.not_mem_nil k) h
  · intro E I1 I2
    unfold dedupe deduplicate_jobs
    rw [← List.append_assoc]
    rw [dedupAux_append (dedupAux [] (E ++ I1)) [] I2,
        dedupAux_append (E ++ I1) [] I2,
        (dedupAux_idem_and_seen (E ++ I1) []).1,
        (dedupAux_idem_and_seen (E ++ I1) []).2]

/-- Witness for C5 amended: a singleton list has distinct keys and is left
unchanged by the merge. -/
theorem C5_dedupe_algebra_witness : dedupe [jobA] [] = [jobA] :=
  C5_dedupe_algebra.1 [jobA] (by decide)

/-- Counterexample to C2: `matches_location` uses plain substring matching,
so allowed = ["us"] matches inside the word "genius" and the call returns
true, where the claim requires word-boundary matching and hence false. -/
theorem C2_word_boundary_counterexample :
    matches_location ⟨[], [pstr "us"], []⟩ (pstr "genius remote role") [] = true := by
  decide

/-- C2 amended: when no excluded phrase occurs, `matches_location` with a
non-empty allowed list returns true iff some allowed phrase occurs
lower-cased as a plain (not word-boundary) substring of the lowered text,
and with an empty allowed list iff some built-in default term occurs as a
plain substring; so allowed = ["us"] matches both "genius remote role" and
"Remote - US". -/
theorem C2_substring_semantics (cfg : MatchConfig) (location description : PyStr)
    (hexc : ∀ exc ∈ cfg.excluded_locations, ¬ pyLower exc <:+: mlText location description) :
    (cfg.allowed_locations ≠ [] →
      (matches_location cfg location description = true ↔
        ∃ a ∈ cfg.allowed_locations, pyLower a <:+: mlText location description)) ∧
    (cfg.allowed_locations = [] →
      (matches_location cfg location description = true ↔
        ∃ t ∈ us_canada_terms, t <:+: mlText location description)) := by
  rw [matches_location_of_no_excluded_hit hexc]
  constructor
  · intro hne
    rw [if_neg (by simpa using hne)]
    simp only [List.any_eq_true, isSubstr_correct]
  · intro hemp
    rw [if_pos (by simpa using hemp)]
    simp only [List.any_eq_true, isSubstr_correct]

/-- Witness for C2 amended: allowed = ["us"] accepts "Remote - US". -/
theorem C2_substring_semantics_witness :
    matches_location ⟨[], [pstr "us"], []⟩ (pstr "Remote - US") [] = true := by
  have h := C2_substring_semantics ⟨[], [pstr "us"], []⟩ (pstr "Remote - US") []
    (fun exc hmem => absurd hmem (List.not_mem_nil exc))
  exact (h.1 (by decide)).mpr
    ⟨pstr "us", by decide, (isSubstr_correct _ _).mp (by decide)⟩

/-- C6: if any excluded phrase occurs lower-cased in the lowered text, then
`matches_location` returns false, regardless of the allowed list. -/
theorem C6_exclusion_precedence (cfg : MatchConfig) (location description : PyStr)
    (h : ∃ exc ∈ cfg.excluded_locations, pyLower exc <:+: mlText location description) :
    matches_location cfg location description = false :=
  matches_location_of_excluded_hit h

/-- Witness for C6: allowed = ["remote"], excluded = ["uk only"],
text "Remote (UK only)" is rejected. -/
theorem C6_exclusion_precedence_witness :
    matches_location ⟨[], [pstr "remote"], [pstr "uk only"]⟩
      (pstr "Remote (UK only)") [] = false :=
  C6_exclusion_precedence _ _ _
    ⟨pstr "uk only", by decide, (isSubstr_correct _ _).mp (by decide)⟩

/-- Counterexample to C7: a job whose location text makes the adapters set
`remote = True` ("remote" occurs in the lowered location, the flag computed
at scrapers.py line 160), with "remote" in the allowed list, is still
rejected by the location check when an excluded phrase occurs in the text —
`matches_location` has no remote-flag special case. -/
theorem C7_remote_flag_counterexample :
    isSubstr (pstr "remote") (pyLower (pstr "Remote - UK only")) = true ∧
    matches_location ⟨[], [pstr "remote"], [pstr "uk only"]⟩
      (pstr "Remote - UK only") [] = false :=
  ⟨by decide, by decide⟩

/-- C7 amended: there is no remote-flag special case; for a remote-flagged
job ("remote" occurs in the lowered location) whose allowed list contains
"remote", the location check accepts iff no excluded phrase occurs in the
text — exclusion still wins over the remote flag. -/
theorem C7_remote_not_authoritative (cfg : MatchConfig) (location description : PyStr)
    (hallow : ∃ a ∈ cfg.allowed_locations, pyLower a = pstr "remote")
    (hremote : pstr "remote" <:+: pyLower location) :
    (matches_location cfg location description = true ↔
      ∀ exc ∈ cfg.excluded_locations, ¬ pyLower exc <:+: mlText location description) := by
  constructor
  · intro hml exc hmem hinf
    rw [matches_location_of_excluded_hit ⟨exc, hmem, hinf⟩] at hml
    exact Bool.false_ne_true hml
  · intro hno
    rw [matches_location_of_no_excluded_hit hno]
    obtain ⟨a, hmem, ha⟩ := hallow
    rw [if_neg (fun hc => List.ne_nil_of_mem hmem (List.isEmpty_eq_true.mp hc))]
    apply List.any_eq_true.mpr
    refine ⟨a, hmem, (isSubstr_correct _ _).mpr ?_⟩
    rw [ha]
    exact infix_mlText_of_location description hremote

/-- Witness for C7 amended: a remote-flagged location with no excluded
phrase present is accepted. -/
theorem C7_remote_not_authoritative_witness :
    matches_location ⟨[], [pstr "remote"], [pstr "uk only"]⟩
      (pstr "Remote - US") [] = true := by
  have h := C7_remote_not_authoritative ⟨[], [pstr "remote"], [pstr "uk only"]⟩
    (pstr "Remote - US") []
    ⟨pstr "remote", by decide, by decide⟩
    ((isSubstr_correct _ _).mp (by decide))
  apply h.mpr
  intro exc hmem hinf
  have hexc : exc = pstr "uk only" := by simpa using hmem
  subst hexc
  exact absurd ((isSubstr_correct _ _).mpr hinf) (by decide)

/-- C3, evaluated at the failing input: with "acme" present in both
registries, the effective registry built by `run_scraper` maps it to the
discovered board identifier — the later `update(discovered)` overwrites the
curated entry, so a discovered entry does override a curated one, contrary
to the claim's curated-precedence requirement. -/
theorem C3_discovered_overrides_curated :
    registryGet [(pstr "acme", pstr "gh-curated")]
      [(pstr "acme", pstr "gh-discovered")] (pstr "acme") =
      some (pstr "gh-discovered") := by decide

/-- C4: in the board-API adapter every per-target fetch failure (request
failure or parse failure) contributes zero jobs for that target only, and a
fresh `scrape()` returns exactly the concatenation of the succeeding
targets' job lists — the model is total, so no exception escapes. -/
theorem C4_partial_failure_isolation (cfg : MatchConfig) (now : PyStr)
    (companies : List (PyStr × PyStr))
    (fetch : PyStr → Option (Except PyErr (List GHJobData))) :
    (∀ nb ∈ companies, ghFetchFailed (fetch nb.2) = true →
      ghScrapeCompany cfg now nb.1 nb.2 fetch = []) ∧
    ghScrape [] cfg now companies fetch =
      ((companies.filter fun nb => !ghFetchFailed (fetch nb.2)).map
        fun nb => ghScrapeCompany cfg now nb.1 nb.2 fetch).flatten :=
  ⟨fun _ _ h => ghScrapeCompany_of_failed h, ghScrape_filter cfg now fetch companies⟩

/-- Witness for C4: of three configured targets one fails (its board
contributes zero jobs) and the run returns exactly the two succeeding
targets' jobs. -/
theorem C4_partial_failure_isolation_witness :
    ghScrapeCompany cfgW nowW (pstr "Beta") (pstr "b1") fetchW = [] ∧
    ghScrape [] cfgW nowW companiesW fetchW =
      ghScrapeCompany cfgW nowW (pstr "Alpha") (pstr "a1") fetchW ++
      ghScrapeCompany cfgW nowW (pstr "Gamma") (pstr "c1") fetchW := by
  have h := C4_partial_failure_isolation cfgW nowW companiesW fetchW
  refine ⟨h.1 (pstr "Beta", pstr "b1") (by decide) (by decide), ?_⟩
  rw [h.2]
  decide

/-- Counterexample to C8: an adapter-constructor error is raised while the
scraper list literal is built, before the try/except-protected loop, so it
escapes `run_scraper` and aborts the run instead of being treated as zero
jobs. -/
theorem C8_constructor_error_counterexample :
    runScraperCore [Except.error (pstr "constructor failed")] =
      Except.error (pstr "constructor failed") := rfl

/-- C8 amended: an unexpected exception escaping `scrape()` is caught at the
aggregator and treated as zero jobs from that adapter, and when every
adapter's `scrape()` fails the run still returns an empty list successfully;
but a constructor error is not caught — it propagates and aborts the run. -/
theorem C8_whole_adapter_isolation (as : List Adapter) :
    runScraperCore (as.map Except.ok) =
      Except.ok (deduplicate_jobs (collectJobs as)) ∧
    ((∀ a ∈ as, ∃ e, a.scrape = Except.error e) →
      runScraperCore (as.map Except.ok) = Except.ok []) ∧
    ∀ (e : PyErr) (pre post : List (Except PyErr Adapter)),
      (∀ c ∈ pre, ∃ a, c = Except.ok a) →
      runScraperCore (pre ++ Except.error e :: post) = Except.error e := by
  refine ⟨?_, ?_, ?_⟩
  · unfold runScraperCore
    rw [buildScrapers_map_ok]
  · intro h
    unfold runScraperCore
    rw [buildScrapers_map_ok]
    show Except.ok (deduplicate_jobs (collectJobs as)) = Except.ok []
    rw [collectJobs_all_error as h]
    rfl
  · intro e pre post h
    unfold runScraperCore
    rw [buildScrapers_error pre e post h]

/-- Witness for C8 amended: a run in which both adapters' `scrape()` raise
still returns an empty job list successfully. -/
theorem C8_whole_adapter_isolation_witness :
    runScraperCore (failingAdapters.map Except.ok) = Except.ok [] :=
  (C8_whole_adapter_isolation failingAdapters).2.1 (by
    intro a ha
    simp only [failingAdapters, List.mem_cons, List.not_mem_nil, or_false] at ha
    rcases ha with rfl | rfl
    · exact ⟨pstr "boom", rfl⟩
    · exact ⟨pstr "crash", rfl⟩)

/-- Counterexample to C9: with two configured keywords the feed adapter
still issues exactly one query (against the fixed devops-category URL, not
one per keyword), and two feed entries sharing a URL both survive to the
returned list — no URL deduplication happens. -/
theorem C9_per_keyword_counterexample :
    cfgW.keywords.length = 2 ∧
    (remotiveScrape [] cfgW nowW rmFetchDup).2.length = 1 ∧
    (remotiveScrape [] cfgW nowW rmFetchDup).1.map Job.url =
      [pstr "https://remotive.com/j/1", pstr "https://remotive.com/j/1"] := by
  refine ⟨rfl, rfl, ?_⟩
  decide

/-- C9 amended: the feed adapter issues exactly one query per `scrape()`
call, regardless of the configured keywords; it returns the previous
`self.jobs` as a prefix and appends at most 30 new jobs (the per-query cap
on entries taken from the feed), with no URL deduplication. -/
theorem C9_feed_adapter_single_query (selfJobs : List Job) (cfg : MatchConfig)
    (now : PyStr) (fetch : PyStr → Option (Except PyErr (List RmJobData))) :
    (remotiveScrape selfJobs cfg now fetch).2 = [remotiveUrl] ∧
    selfJobs <+: (remotiveScrape selfJobs cfg now fetch).1 ∧
    (remotiveScrape selfJobs cfg now fetch).1.length ≤ selfJobs.length + 30 := by
  refine ⟨(remotiveScrape_state selfJobs cfg now fetch).2,
    (remotiveScrape_state selfJobs cfg now fetch).1, ?_⟩
  unfold remotiveScrape
  cases hf : fetch remotiveUrl with
  | none => exact Nat.le_add_right _ _
  | some r =>
    cases r with
    | error e => exact Nat.le_add_right _ _
    | ok ds =>
      show (selfJobs ++ rmProcess cfg now ds).length ≤ selfJobs.length + 30
      rw [List.length_append]
      have h1 : (rmProcess cfg now ds).length ≤ 30 := by
        calc (rmProcess cfg now ds).length
            ≤ (ds.take 30).length := List.length_filterMap_le _ _
          _ ≤ 30 := by rw [List.length_take]; exact Nat.min_le_left _ _
      omega

/-- C10: `scrape()` extends the instance's accumulated `self.jobs` and
returns the whole accumulation, so the list returned by a second call on
the same instance has the first call's result as a prefix and contains
every job of it — repeated calls on one instance are not independent.
Stated for the board-API adapter and the feed adapter models. -/
theorem C10_scrape_accumulates (s : List Job) (cfg : MatchConfig) (now : PyStr)
    (companies1 companies2 : List (PyStr × PyStr))
    (fetch1 fetch2 : PyStr → Option (Except PyErr (List GHJobData)))
    (rs : List Job) (rcfg : MatchConfig) (rnow : PyStr)
    (rfetch1 rfetch2 : PyStr → Option (Except PyErr (List RmJobData))) :
    (ghScrape s cfg now companies1 fetch1 <+:
      ghScrape (ghScrape s cfg now companies1 fetch1) cfg now companies2 fetch2) ∧
    (∀ j ∈ ghScrape s cfg now companies1 fetch1,
      j ∈ ghScrape (ghScrape s cfg now companies1 fetch1) cfg now companies2 fetch2) ∧
    ((remotiveScrape rs rcfg rnow rfetch1).1 <+:
      (remotiveScrape (remotiveScrape rs rcfg rnow rfetch1).1 rcfg rnow rfetch2).1) := by
  have hg : ghScrape s cfg now companies1 fetch1 <+:
      ghScrape (ghScrape s cfg now companies1 fetch1) cfg now companies2 fetch2 := by
    rw [ghScrape_state cfg now fetch2 companies2
      (ghScrape s cfg now companies1 fetch1)]
    exact List.prefix_append _ _
  exact ⟨hg, fun j hj => hg.subset hj,
    (remotiveScrape_state (remotiveScrape rs rcfg rnow rfetch1).1 rcfg rnow rfetch2).1⟩

/-- Witness for C10: a job found by the first `scrape()` call is still in
the list returned by a second call on the same instance. -/
theorem C10_scrape_accumulates_witness :
    ghJobAlpha ∈ ghScrape (ghScrape [] cfgW nowW companiesW fetchW) cfgW nowW [] fetchW :=
  (C10_scrape_accumulates [] cfgW nowW companiesW [] fetchW fetchW
    [] cfgW nowW rmFetchDup rmFetchDup).2.1 ghJobAlpha (by decide)
